import Mathlib

/-!
Verification development for the pipeline-debugger daemon core
(`src/lib/daemon.ts`, `src/lib/docker-executor.ts`, `src/lib/workflow-parse.ts`).

The TypeScript code is shallowly embedded: JavaScript strings are modelled as
Lean `String` (character level), `undefined`-able fields as `Option`,
`Date.now()` as a caller-supplied clock `Nat → Nat` sampled at successive call
indices, JS `Map` insertion-ordered maps as association lists, and the mutable
run record as explicit state passing.  External collaborators (project store,
filesystem workflow loader, the Docker engine, the act/gh executors) enter the
model as parameters describing their observed outcome, exactly at the points
where the daemon awaits them.
-/

namespace PipelineDaemon

/-- `type RunStatus = 'queued' | 'running' | 'success' | 'failed'` (daemon.ts). -/
inductive RunStatus where
  | queued
  | running
  | success
  | failed
deriving DecidableEq, Repr

/-- `type RunEngine = 'builtin' | 'act' | 'github'` (daemon.ts). -/
inductive RunEngine where
  | builtin
  | act
  | github
deriving DecidableEq, Repr

/-- `WorkflowStep` (docker-executor.ts / workflow-parse.ts): every field optional. -/
structure WorkflowStep where
  name : Option String := none
  run : Option String := none
  uses : Option String := none
  env : Option (List (String × String)) := none
deriving DecidableEq, Repr

/-- `WorkflowJob` (workflow-parse.ts). -/
structure WorkflowJob where
  name : Option String := none
  steps : Option (List WorkflowStep) := none
deriving DecidableEq, Repr

/-- `WorkflowDoc` (workflow-parse.ts); `jobs` keeps JS object key order. -/
structure WorkflowDoc where
  name : Option String := none
  jobs : Option (List (String × WorkflowJob)) := none
deriving DecidableEq, Repr

/-- A project as resolved by the external project store (spec §3). -/
structure Project where
  id : String
  name : String
  rootPath : String
deriving DecidableEq, Repr

/-- `RunRecord` (daemon.ts): the in-memory run registry entry. -/
structure RunRecord where
  id : String
  createdAt : Nat
  updatedAt : Nat
  status : RunStatus
  engine : RunEngine
  projectId : Option String := none
  projectRoot : Option String := none
  workflowPath : Option String := none
  jobId : Option String := none
  eventName : Option String := none
  eventPath : Option String := none
  secretFile : Option String := none
  varsFile : Option String := none
  platforms : Option (List String) := none
  repo : Option String := none
  ref : Option String := none
  inputs : Option (List (String × String)) := none
  image : Option String := none
  steps : Option (List WorkflowStep) := none
  exitCode : Option Int := none
  log : Option String := none
deriving DecidableEq, Repr

/-- Broadcast event payloads (daemon.ts `broadcast` call sites). -/
inductive Event where
  | runCreated (run : RunRecord)
  | runUpdated (run : RunRecord)
  | runLog (id : String) (chunk : String)
  | runFinished (run : RunRecord) (error : Option String)
  | hello (runs : List RunRecord)
deriving DecidableEq, Repr

/-- `const MAX_LOG_BYTES = 5 * 1024 * 1024` (daemon.ts). -/
def MAX_LOG_BYTES : Nat := 5 * 1024 * 1024

/-- JS `str.slice(start)` at character level. -/
def strSliceFrom (s : String) (n : Nat) : String :=
  ⟨s.data.drop n⟩

/-- The text transformation of `appendLog` (daemon.ts lines 118-121):
append the chunk, then if the buffer exceeds the cap keep only the last
`MAX_LOG_BYTES` characters (`run.log.slice(run.log.length - MAX_LOG_BYTES)`). -/
def appendLogText (log chunk : String) : String :=
  if (log ++ chunk).length > MAX_LOG_BYTES then
    strSliceFrom (log ++ chunk) ((log ++ chunk).length - MAX_LOG_BYTES)
  else log ++ chunk

/-- The log buffer after a sequence of appends, starting from the empty buffer
(a fresh run has no log; `run.log ?? ''`). -/
def logAfterAppends (chunks : List String) : String :=
  chunks.foldl appendLogText ""

/-- The full uncapped concatenation of all appended chunks. -/
def uncappedLog (chunks : List String) : String :=
  chunks.foldl (fun a c => a ++ c) ""

lemma data_strSliceFrom (s : String) (n : Nat) :
    (strSliceFrom s n).data = s.data.drop n := rfl

lemma length_strSliceFrom (s : String) (n : Nat) :
    (strSliceFrom s n).length = s.length - n := by
  show (s.data.drop n).length = s.data.length - n
  exact List.length_drop n s.data

lemma appendLogText_length_le (log chunk : String) :
    (appendLogText log chunk).length ≤ MAX_LOG_BYTES := by
  unfold appendLogText
  by_cases h : (log ++ chunk).length > MAX_LOG_BYTES
  · rw [if_pos h, length_strSliceFrom]
    omega
  · rw [if_neg h]
    omega

lemma appendLogText_suffix (log chunk full : String)
    (h : log.data <:+ full.data) :
    (appendLogText log chunk).data <:+ (full ++ chunk).data := by
  obtain ⟨t, ht⟩ := h
  have happ : (log ++ chunk).data <:+ (full ++ chunk).data := by
    refine ⟨t, ?_⟩
    simp only [String.data_append]
    rw [← List.append_assoc, ht]
  unfold appendLogText
  by_cases hlen : (log ++ chunk).length > MAX_LOG_BYTES
  · rw [if_pos hlen, data_strSliceFrom]
    exact (List.drop_suffix _ _).trans happ
  · rw [if_neg hlen]
    exact happ

lemma foldl_appendLogText_length_le (chunks : List String) (log : String)
    (h : log.length ≤ MAX_LOG_BYTES) :
    (chunks.foldl appendLogText log).length ≤ MAX_LOG_BYTES := by
  induction chunks generalizing log with
  | nil => simpa using h
  | cons c cs ih =>
    simpa using ih (appendLogText log c) (appendLogText_length_le log c)

lemma foldl_appendLogText_suffix (chunks : List String) (log full : String)
    (h : log.data <:+ full.data) :
    (chunks.foldl appendLogText log).data <:+
      (chunks.foldl (fun a c => a ++ c) full).data := by
  induction chunks generalizing log full with
  | nil => simpa using h
  | cons c cs ih =>
    simpa using ih (appendLogText log c) (full ++ c) (appendLogText_suffix log c full h)

lemma strLength_append (s t : String) : (s ++ t).length = s.length + t.length := by
  show (s ++ t).data.length = s.data.length + t.data.length
  rw [String.data_append, List.length_append]

lemma appendLogText_length_min (log chunk full : String)
    (h : log.length = min MAX_LOG_BYTES full.length) :
    (appendLogText log chunk).length
      = min MAX_LOG_BYTES (full ++ chunk).length := by
  unfold appendLogText
  by_cases hlen : (log ++ chunk).length > MAX_LOG_BYTES
  · rw [if_pos hlen, length_strSliceFrom]
    simp only [strLength_append] at h hlen ⊢
    omega
  · rw [if_neg hlen]
    simp only [strLength_append] at h hlen ⊢
    omega

lemma foldl_appendLogText_length_min (chunks : List String) (log full : String)
    (h : log.length = min MAX_LOG_BYTES full.length) :
    (chunks.foldl appendLogText log).length
      = min MAX_LOG_BYTES ((chunks.foldl (fun a c => a ++ c) full)).length := by
  induction chunks generalizing log full with
  | nil => simpa using h
  | cons c cs ih =>
    simpa using ih (appendLogText log c) (full ++ c)
      (appendLogText_length_min log c full h)

/-- C3: after any sequence of log appends the buffer never exceeds the 5 MiB
cap; what is retained is a suffix of the full uncapped concatenation of all
appended chunks, of length exactly `min cap total` — i.e. exactly the most
recent bytes, never an arbitrary mid-stream truncation. -/
theorem appendLog_cap_and_suffix (chunks : List String) :
    (logAfterAppends chunks).length ≤ MAX_LOG_BYTES
      ∧ (logAfterAppends chunks).data <:+ (uncappedLog chunks).data
      ∧ (logAfterAppends chunks).length
          = min MAX_LOG_BYTES (uncappedLog chunks).length := by
  refine ⟨?_, ?_, ?_⟩
  · exact foldl_appendLogText_length_le chunks "" (by decide)
  · exact foldl_appendLogText_suffix chunks "" "" (List.suffix_refl _)
  · exact foldl_appendLogText_length_min chunks "" "" (by decide)

/-- JS truthiness test for an optional string: `undefined` and the empty
string are falsy. -/
def jsFalsy : Option String → Bool
  | none => true
  | some s => s = ""

/-- JS truthiness for an optional string: defined and nonempty. -/
def jsTruthy (o : Option String) : Bool := !(jsFalsy o)

/-- `pickJob` (workflow-parse.ts): error when the document has no jobs; a
truthy job id (`if (jobId)`, so the empty string counts as absent) must exist;
otherwise the first declared job is picked. -/
def pickJob (doc : WorkflowDoc) (jobId : Option String) :
    Except String (String × WorkflowJob) :=
  match doc.jobs with
  | none => .error "No jobs found in workflow YAML."
  | some [] => .error "No jobs found in workflow YAML."
  | some (first :: rest) =>
    if jsTruthy jobId then
      match (first :: rest).lookup (jobId.getD "") with
      | none => .error ("Job " ++ jobId.getD "" ++ " not found in workflow.")
      | some job => .ok (jobId.getD "", job)
    else .ok (first.1, first.2)

/-- The JSON body accepted by `POST /runs` (daemon.ts). -/
structure PostBody where
  engine : Option RunEngine := none
  image : Option String := none
  steps : Option (List WorkflowStep) := none
  workflowPath : Option String := none
  jobId : Option String := none
  projectId : Option String := none
  eventName : Option String := none
  eventPath : Option String := none
  secretFile : Option String := none
  varsFile : Option String := none
  platforms : Option (List String) := none
  repo : Option String := none
  ref : Option String := none
  inputs : Option (List (String × String)) := none
deriving Repr

/-- Outcomes of the external collaborators consulted while handling
`POST /runs`: the project store resolution (`selectProject` /
`getActiveProject`), the workflow loader (`loadWorkflowDoc`), and the id
generator (`nanoid(12)`). -/
structure CreateCtx where
  project : Option Project
  loadDoc : Except String WorkflowDoc
  freshId : String

/-- The run registry: `const runs = new Map<string, RunRecord>()`, modelled as
an insertion-ordered association list. -/
abbrev Registry := List (String × RunRecord)

/-- JS `Map.set`: overwrite in place when the key exists, else append. -/
def mapSet (m : Registry) (k : String) (v : RunRecord) : Registry :=
  if (m.lookup k).isSome then
    m.map (fun p => if p.1 = k then (k, v) else p)
  else m ++ [(k, v)]

/-- The synchronous part of the `POST /runs` handler (daemon.ts lines
201-283): engine defaulting, validation, workflow/job resolution, run-record
construction, registry insert and the `run.created` broadcast.  The
`workflowPath` tests are JS truthiness tests (`steps.length === 0 &&
workflowPath` and `!workflowPath`), so an empty-string path counts as absent.
Returns the created record (or the thrown error), the registry afterwards,
and the events broadcast; on a throw the registry is returned as it stood and
nothing was broadcast, since in the source every `throw` happens before
`runs.set`. -/
def createRun (clock : Nat → Nat) (ctx : CreateCtx) (body : PostBody)
    (runs : Registry) : Except String RunRecord × Registry × List Event :=
  let engine := body.engine.getD .act
  let steps0 := body.steps.getD []
  let resolved : Except String (List WorkflowStep × Option String) :=
    match engine with
    | .builtin =>
      if steps0.isEmpty && jsTruthy body.workflowPath then
        match ctx.project with
        | none => .error "No active project. Run: pdbg project add <path>"
        | some _ => do
          let doc ← ctx.loadDoc
          let picked ← pickJob doc body.jobId
          .ok (picked.2.steps.getD [], some picked.1)
      else .ok (steps0, body.jobId)
    | _ =>
      if jsFalsy body.workflowPath then
        .error "workflowPath is required for act/github engine"
      else
        match ctx.project with
        | none => .error "No active project. Run: pdbg project add <path>"
        | some _ => do
          let doc ← ctx.loadDoc
          let picked ← pickJob doc body.jobId
          .ok (steps0, some picked.1)
  match resolved with
  | .error e => (.error e, runs, [])
  | .ok (steps, jobId) =>
    let run : RunRecord := {
      id := ctx.freshId
      createdAt := clock 0
      updatedAt := clock 1
      status := .queued
      engine := engine
      image := if engine = .builtin then some (body.image.getD "ubuntu:latest") else none
      steps := if engine = .builtin then some steps else none
      workflowPath := body.workflowPath
      jobId := jobId
      eventName := body.eventName
      eventPath := body.eventPath
      secretFile := body.secretFile
      varsFile := body.varsFile
      platforms := body.platforms
      repo := body.repo
      ref := body.ref
      inputs := body.inputs
      projectId := ctx.project.map (fun p => p.id)
      projectRoot := ctx.project.map (fun p => p.rootPath)
      exitCode := none
      log := none }
    (.ok run, mapSet runs ctx.freshId run, [Event.runCreated run])

/-- What the execution backend was observed to do: return normally with chunks
streamed to `onOutput`, a final exit code and its own accumulated log, or
stream some chunks and then throw. -/
inductive BackendOutcome where
  | returns (chunks : List String) (exitCode : Int) (log : String)
  | throws (chunks : List String) (message : String)
deriving Repr

/-- `appendLog` (daemon.ts) as a record transformation: only `log` changes. -/
def applyAppendLog (run : RunRecord) (chunk : String) : RunRecord :=
  { run with log := some (appendLogText (run.log.getD "") chunk) }

/-- Apply a sequence of `onOutput` chunks to a run: final record, the
`run.log` events broadcast, and the intermediate record snapshots. -/
def appendChunks (run : RunRecord) (chunks : List String) :
    RunRecord × List Event × List RunRecord :=
  match chunks with
  | [] => (run, [], [])
  | c :: cs =>
    let r1 := applyAppendLog run c
    let rest := appendChunks r1 cs
    (rest.1, Event.runLog run.id c :: rest.2.1, r1 :: rest.2.2)

/-- The fire-and-forget execution IIFE (daemon.ts lines 286-346): transition
to `running` and broadcast `run.updated`; stream the backend's chunks through
`appendLog`; then either record the returned exit code (adopting the backend's
own log when the buffer is still falsy) and finish `success`/`failed`, or, when
the backend threw, force exit code 1 and finish `failed` with the error
message.  Returns the final record, the events broadcast by the IIFE, and the
record snapshots after each mutation block. -/
def runExecution (clock : Nat → Nat) (run0 : RunRecord) (outcome : BackendOutcome) :
    RunRecord × List Event × List RunRecord :=
  let run1 := { run0 with status := .running, updatedAt := clock 2 }
  match outcome with
  | .returns chunks exitCode rlog =>
    let streamed := appendChunks run1 chunks
    let run3 := { streamed.1 with
      exitCode := some exitCode
      log := if jsFalsy streamed.1.log then some rlog else streamed.1.log
      status := if exitCode = 0 then RunStatus.success else RunStatus.failed
      updatedAt := clock 3 }
    (run3, Event.runUpdated run1 :: (streamed.2.1 ++ [Event.runFinished run3 none]),
      run1 :: (streamed.2.2 ++ [run3]))
  | .throws chunks msg =>
    let streamed := appendChunks run1 chunks
    let run3 := { streamed.1 with
      exitCode := some 1
      status := RunStatus.failed
      updatedAt := clock 3 }
    (run3, Event.runUpdated run1 :: (streamed.2.1 ++ [Event.runFinished run3 (some msg)]),
      run1 :: (streamed.2.2 ++ [run3]))

/-- All events broadcast for one `POST /runs` request, creation plus the
asynchronous execution (empty when validation threw). -/
def postRunsTrace (clock : Nat → Nat) (ctx : CreateCtx) (body : PostBody)
    (outcome : BackendOutcome) (runs : Registry) : List Event :=
  match createRun clock ctx body runs with
  | (.error _, _, evs) => evs
  | (.ok r0, _, evs) => evs ++ (runExecution clock r0 outcome).2.1

/-- The run record snapshots over the whole life of one created run, starting
with the freshly created record (empty when validation threw). -/
def postRunsHistory (clock : Nat → Nat) (ctx : CreateCtx) (body : PostBody)
    (outcome : BackendOutcome) (runs : Registry) : List RunRecord :=
  match createRun clock ctx body runs with
  | (.error _, _, _) => []
  | (.ok r0, _, _) => r0 :: (runExecution clock r0 outcome).2.2

/-- The chunks the backend streamed, whatever the outcome. -/
def chunksOf : BackendOutcome → List String
  | .returns chunks _ _ => chunks
  | .throws chunks _ => chunks

/-- The terminal status the daemon assigns for a backend outcome. -/
def terminalStatus : BackendOutcome → RunStatus
  | .returns _ exitCode _ => if exitCode = 0 then RunStatus.success else RunStatus.failed
  | .throws _ _ => RunStatus.failed

/-- The exit code the daemon records for a backend outcome (forced to 1 on a
throw). -/
def outcomeExit : BackendOutcome → Int
  | .returns _ exitCode _ => exitCode
  | .throws _ _ => 1

@[simp] lemma applyAppendLog_status (r : RunRecord) (c : String) :
    (applyAppendLog r c).status = r.status := rfl

@[simp] lemma applyAppendLog_updatedAt (r : RunRecord) (c : String) :
    (applyAppendLog r c).updatedAt = r.updatedAt := rfl

@[simp] lemma applyAppendLog_exitCode (r : RunRecord) (c : String) :
    (applyAppendLog r c).exitCode = r.exitCode := rfl

@[simp] lemma applyAppendLog_id (r : RunRecord) (c : String) :
    (applyAppendLog r c).id = r.id := rfl

lemma appendChunks_fst_status (run : RunRecord) (chunks : List String) :
    ((appendChunks run chunks).1).status = run.status := by
  induction chunks generalizing run with
  | nil => rfl
  | cons c cs ih => simpa [appendChunks] using ih (applyAppendLog run c)

lemma appendChunks_fst_updatedAt (run : RunRecord) (chunks : List String) :
    ((appendChunks run chunks).1).updatedAt = run.updatedAt := by
  induction chunks generalizing run with
  | nil => rfl
  | cons c cs ih => simpa [appendChunks] using ih (applyAppendLog run c)

lemma appendChunks_fst_exitCode (run : RunRecord) (chunks : List String) :
    ((appendChunks run chunks).1).exitCode = run.exitCode := by
  induction chunks generalizing run with
  | nil => rfl
  | cons c cs ih => simpa [appendChunks] using ih (applyAppendLog run c)

lemma appendChunks_events (run : RunRecord) (chunks : List String) :
    (appendChunks run chunks).2.1 = chunks.map (Event.runLog run.id) := by
  induction chunks generalizing run with
  | nil => rfl
  | cons c cs ih =>
    simp only [appendChunks, List.map_cons]
    rw [ih (applyAppendLog run c)]
    rfl

lemma appendChunks_hist_statuses (run : RunRecord) (chunks : List String) :
    (appendChunks run chunks).2.2.map RunRecord.status
      = List.replicate chunks.length run.status := by
  induction chunks generalizing run with
  | nil => rfl
  | cons c cs ih =>
    simp only [appendChunks, List.map_cons, List.length_cons, List.replicate_succ]
    rw [ih (applyAppendLog run c)]
    rfl

lemma appendChunks_hist_updatedAt (run : RunRecord) (chunks : List String) :
    (appendChunks run chunks).2.2.map RunRecord.updatedAt
      = List.replicate chunks.length run.updatedAt := by
  induction chunks generalizing run with
  | nil => rfl
  | cons c cs ih =>
    simp only [appendChunks, List.map_cons, List.length_cons, List.replicate_succ]
    rw [ih (applyAppendLog run c)]
    rfl

lemma appendChunks_hist_exitCode (run : RunRecord) (chunks : List String) :
    (appendChunks run chunks).2.2.map RunRecord.exitCode
      = List.replicate chunks.length run.exitCode := by
  induction chunks generalizing run with
  | nil => rfl
  | cons c cs ih =>
    simp only [appendChunks, List.map_cons, List.length_cons, List.replicate_succ]
    rw [ih (applyAppendLog run c)]
    rfl

lemma runExecution_hist_statuses (clock : Nat → Nat) (run0 : RunRecord)
    (outcome : BackendOutcome) :
    (runExecution clock run0 outcome).2.2.map RunRecord.status
      = List.replicate ((chunksOf outcome).length + 1) RunStatus.running
          ++ [terminalStatus outcome] := by
  cases outcome with
  | returns chunks exitCode rlog =>
    simp only [runExecution, chunksOf, terminalStatus, List.map_cons, List.map_append,
      List.map_cons, List.map_nil, appendChunks_hist_statuses, List.replicate_succ]
    rfl
  | throws chunks msg =>
    simp only [runExecution, chunksOf, terminalStatus, List.map_cons, List.map_append,
      List.map_cons, List.map_nil, appendChunks_hist_statuses, List.replicate_succ]
    rfl

lemma runExecution_hist_updatedAt (clock : Nat → Nat) (run0 : RunRecord)
    (outcome : BackendOutcome) :
    (runExecution clock run0 outcome).2.2.map RunRecord.updatedAt
      = List.replicate ((chunksOf outcome).length + 1) (clock 2) ++ [clock 3] := by
  cases outcome with
  | returns chunks exitCode rlog =>
    simp only [runExecution, chunksOf, List.map_cons, List.map_append,
      List.map_nil, appendChunks_hist_updatedAt, List.replicate_succ]
    rfl
  | throws chunks msg =>
    simp only [runExecution, chunksOf, List.map_cons, List.map_append,
      List.map_nil, appendChunks_hist_updatedAt, List.replicate_succ]
    rfl

lemma runExecution_final_status (clock : Nat → Nat) (run0 : RunRecord)
    (outcome : BackendOutcome) :
    (runExecution clock run0 outcome).1.status = terminalStatus outcome := by
  cases outcome with
  | returns chunks exitCode rlog => rfl
  | throws chunks msg => rfl

lemma runExecution_final_exitCode (clock : Nat → Nat) (run0 : RunRecord)
    (outcome : BackendOutcome) :
    (runExecution clock run0 outcome).1.exitCode = some (outcomeExit outcome) := by
  cases outcome with
  | returns chunks exitCode rlog => rfl
  | throws chunks msg => rfl

lemma runExecution_final_updatedAt (clock : Nat → Nat) (run0 : RunRecord)
    (outcome : BackendOutcome) :
    (runExecution clock run0 outcome).1.updatedAt = clock 3 := by
  cases outcome with
  | returns chunks exitCode rlog => rfl
  | throws chunks msg => rfl

lemma mapSet_not_mem (m : Registry) (k : String) (v : RunRecord)
    (h : m.lookup k = none) : mapSet m k v = m ++ [(k, v)] := by
  unfold mapSet
  rw [h]
  rfl

lemma createRun_ok (clock : Nat → Nat) (ctx : CreateCtx) (body : PostBody)
    (runs : Registry) (r0 : RunRecord) (runs2 : Registry) (evs : List Event)
    (h : createRun clock ctx body runs = (Except.ok r0, runs2, evs)) :
    r0.status = RunStatus.queued ∧ r0.exitCode = none ∧ r0.log = none
      ∧ r0.id = ctx.freshId ∧ r0.createdAt = clock 0 ∧ r0.updatedAt = clock 1
      ∧ runs2 = mapSet runs ctx.freshId r0 ∧ evs = [Event.runCreated r0] := by
  simp only [createRun] at h
  split at h
  · simp at h
  · simp only [Prod.mk.injEq, Except.ok.injEq] at h
    obtain ⟨hr, hreg, hevs⟩ := h
    subst hr
    exact ⟨rfl, rfl, rfl, rfl, rfl, rfl, hreg.symm, hevs.symm⟩

lemma postRunsHistory_of_ok (clock : Nat → Nat) (ctx : CreateCtx) (body : PostBody)
    (outcome : BackendOutcome) (runs : Registry) (r0 : RunRecord) (runs2 : Registry)
    (evs : List Event)
    (h : createRun clock ctx body runs = (Except.ok r0, runs2, evs)) :
    postRunsHistory clock ctx body outcome runs
      = r0 :: (runExecution clock r0 outcome).2.2 := by
  unfold postRunsHistory
  rw [h]

lemma postRunsTrace_of_ok (clock : Nat → Nat) (ctx : CreateCtx) (body : PostBody)
    (outcome : BackendOutcome) (runs : Registry) (r0 : RunRecord) (runs2 : Registry)
    (evs : List Event)
    (h : createRun clock ctx body runs = (Except.ok r0, runs2, evs)) :
    postRunsTrace clock ctx body outcome runs
      = evs ++ (runExecution clock r0 outcome).2.1 := by
  unfold postRunsTrace
  rw [h]

/-- C1: a run created by `POST /runs` starts `queued`; over its whole life its
status passes through exactly `queued`, then `running` (set once, before the
backend is consulted, and unchanged by every log append), then a single
terminal `success`/`failed` state after which no further change occurs; and a
fresh id is inserted into the registry exactly once, so the same id is never
re-run. -/
theorem run_status_lifecycle
    (clock : Nat → Nat) (ctx : CreateCtx) (body : PostBody) (outcome : BackendOutcome)
    (runs : Registry) (r0 : RunRecord) (runs2 : Registry) (evs : List Event)
    (hcreate : createRun clock ctx body runs = (Except.ok r0, runs2, evs))
    (hfresh : runs.lookup ctx.freshId = none) :
    r0.status = RunStatus.queued
      ∧ (postRunsHistory clock ctx body outcome runs).map RunRecord.status
          = RunStatus.queued
              :: (List.replicate ((chunksOf outcome).length + 1) RunStatus.running
                    ++ [terminalStatus outcome])
      ∧ (terminalStatus outcome = RunStatus.success
          ∨ terminalStatus outcome = RunStatus.failed)
      ∧ runs2 = runs ++ [(ctx.freshId, r0)]
      ∧ runs2.lookup ctx.freshId = some r0 := by
  obtain ⟨hst, hec, hlog, hid, hca, hua, hreg, hevs⟩ :=
    createRun_ok clock ctx body runs r0 runs2 evs hcreate
  have hist := postRunsHistory_of_ok clock ctx body outcome runs r0 runs2 evs hcreate
  have hreg2 : runs2 = runs ++ [(ctx.freshId, r0)] := by
    rw [hreg, mapSet_not_mem runs ctx.freshId r0 hfresh]
  refine ⟨hst, ?_, ?_, hreg2, ?_⟩
  · rw [hist, List.map_cons, hst, runExecution_hist_statuses]
  · cases outcome with
    | returns chunks exitCode rlog =>
      by_cases hz : exitCode = 0
      · exact Or.inl (by simp [terminalStatus, hz])
      · exact Or.inr (by simp [terminalStatus, hz])
    | throws chunks msg => exact Or.inr rfl
  · rw [hreg2, List.lookup_append, hfresh]
    simp [List.lookup]

/-- Concrete fixtures for witnessing: identity clock, a builtin run with one
explicit step, a backend that streams one chunk and exits 0. -/
def wClock : Nat → Nat := fun n => n

def wStep : WorkflowStep := { run := some "echo hi" }

def wBody : PostBody := { engine := some RunEngine.builtin, steps := some [wStep] }

def wCtx : CreateCtx :=
  { project := none, loadDoc := Except.error "unused", freshId := "run-1" }

def wOutcome : BackendOutcome := BackendOutcome.returns ["hi"] 0 "hi"

def dummyRun : RunRecord :=
  { id := "", createdAt := 0, updatedAt := 0, status := RunStatus.queued,
    engine := RunEngine.act }

def wRun0 : RunRecord := ((createRun wClock wCtx wBody []).1).toOption.getD dummyRun

/-- Witness for C1 at a concrete creation. -/
theorem run_status_lifecycle_witness :
    wRun0.status = RunStatus.queued
      ∧ (postRunsHistory wClock wCtx wBody wOutcome []).map RunRecord.status
          = RunStatus.queued
              :: (List.replicate ((chunksOf wOutcome).length + 1) RunStatus.running
                    ++ [terminalStatus wOutcome])
      ∧ (terminalStatus wOutcome = RunStatus.success
          ∨ terminalStatus wOutcome = RunStatus.failed)
      ∧ [("run-1", wRun0)] = ([] : Registry) ++ [("run-1", wRun0)]
      ∧ ([("run-1", wRun0)] : Registry).lookup "run-1" = some wRun0 :=
  run_status_lifecycle wClock wCtx wBody wOutcome [] wRun0 [("run-1", wRun0)]
    [Event.runCreated wRun0] rfl rfl

lemma terminalStatus_cases (outcome : BackendOutcome) :
    terminalStatus outcome = RunStatus.success
      ∨ terminalStatus outcome = RunStatus.failed := by
  cases outcome with
  | returns chunks exitCode rlog =>
    by_cases hz : exitCode = 0
    · exact Or.inl (by simp [terminalStatus, hz])
    · exact Or.inr (by simp [terminalStatus, hz])
  | throws chunks msg => exact Or.inr rfl

lemma mem_appendChunks_hist_exitCode (run : RunRecord) (chunks : List String)
    (r : RunRecord) (hr : r ∈ (appendChunks run chunks).2.2) :
    r.exitCode = run.exitCode := by
  have hmem : r.exitCode ∈ (appendChunks run chunks).2.2.map RunRecord.exitCode :=
    List.mem_map_of_mem _ hr
  rw [appendChunks_hist_exitCode] at hmem
  exact List.eq_of_mem_replicate hmem

lemma runExecution_hist_mem_exitCode (clock : Nat → Nat) (run0 : RunRecord)
    (outcome : BackendOutcome) (h0 : run0.exitCode = none) :
    ∀ r ∈ (runExecution clock run0 outcome).2.2,
      r.exitCode = none ∨ r.status = terminalStatus outcome := by
  intro r hr
  cases outcome with
  | returns chunks exitCode rlog =>
    simp only [runExecution, List.mem_cons, List.mem_append] at hr
    rcases hr with h1 | h2 | h3 | h3e
    · left; rw [h1]; exact h0
    · left
      rw [mem_appendChunks_hist_exitCode _ chunks r h2]
      exact h0
    · right; rw [h3]; rfl
    · exact absurd h3e (List.not_mem_nil r)
  | throws chunks msg =>
    simp only [runExecution, List.mem_cons, List.mem_append] at hr
    rcases hr with h1 | h2 | h3 | h3e
    · left; rw [h1]; exact h0
    · left
      rw [mem_appendChunks_hist_exitCode _ chunks r h2]
      exact h0
    · right; rw [h3]; rfl
    · exact absurd h3e (List.not_mem_nil r)

/-- C2: for a created run, the recorded exit code is the backend's (forced to
1 when the backend threw); the terminal status is `success` exactly when the
backend returned 0, `failed` on any nonzero return and on a throw; the exit
code is defined at the terminal transition and undefined in every earlier
(non-terminal) snapshot. -/
theorem exit_code_matches_backend
    (clock : Nat → Nat) (ctx : CreateCtx) (body : PostBody) (outcome : BackendOutcome)
    (runs : Registry) (r0 : RunRecord) (runs2 : Registry) (evs : List Event)
    (hcreate : createRun clock ctx body runs = (Except.ok r0, runs2, evs)) :
    (runExecution clock r0 outcome).1.exitCode = some (outcomeExit outcome)
      ∧ (∀ chunks code rlog, outcome = BackendOutcome.returns chunks code rlog →
          ((runExecution clock r0 outcome).1.status = RunStatus.success ↔ code = 0)
            ∧ (runExecution clock r0 outcome).1.exitCode = some code)
      ∧ (∀ chunks msg, outcome = BackendOutcome.throws chunks msg →
          (runExecution clock r0 outcome).1.status = RunStatus.failed
            ∧ (runExecution clock r0 outcome).1.exitCode = some 1)
      ∧ (∀ r ∈ postRunsHistory clock ctx body outcome runs,
          r.status ≠ RunStatus.success → r.status ≠ RunStatus.failed →
            r.exitCode = none)
      ∧ (runExecution clock r0 outcome).1.exitCode ≠ none := by
  obtain ⟨hst, hec, hlog, hid, hca, hua, hreg, hevs⟩ :=
    createRun_ok clock ctx body runs r0 runs2 evs hcreate
  refine ⟨runExecution_final_exitCode clock r0 outcome, ?_, ?_, ?_, ?_⟩
  · intro chunks code rlog hout
    subst hout
    constructor
    · rw [runExecution_final_status]
      by_cases hz : code = 0
      · simp [terminalStatus, hz]
      · simp [terminalStatus, hz]
    · exact runExecution_final_exitCode clock r0 _
  · intro chunks msg hout
    subst hout
    exact ⟨runExecution_final_status clock r0 _, runExecution_final_exitCode clock r0 _⟩
  · intro r hr hns hnf
    rw [postRunsHistory_of_ok clock ctx body outcome runs r0 runs2 evs hcreate] at hr
    rcases List.mem_cons.mp hr with h1 | h2
    · rw [h1]; exact hec
    · rcases runExecution_hist_mem_exitCode clock r0 outcome hec r h2 with h | h
      · exact h
      · rcases terminalStatus_cases outcome with ht | ht
        · exact absurd (h.trans ht) hns
        · exact absurd (h.trans ht) hnf
  · rw [runExecution_final_exitCode]
    exact Option.some_ne_none _

/-- Witness for C2 at a concrete creation. -/
theorem exit_code_matches_backend_witness :
    (runExecution wClock wRun0 wOutcome).1.exitCode = some (outcomeExit wOutcome)
      ∧ (∀ chunks code rlog, wOutcome = BackendOutcome.returns chunks code rlog →
          ((runExecution wClock wRun0 wOutcome).1.status = RunStatus.success ↔ code = 0)
            ∧ (runExecution wClock wRun0 wOutcome).1.exitCode = some code)
      ∧ (∀ chunks msg, wOutcome = BackendOutcome.throws chunks msg →
          (runExecution wClock wRun0 wOutcome).1.status = RunStatus.failed
            ∧ (runExecution wClock wRun0 wOutcome).1.exitCode = some 1)
      ∧ (∀ r ∈ postRunsHistory wClock wCtx wBody wOutcome [],
          r.status ≠ RunStatus.success → r.status ≠ RunStatus.failed →
            r.exitCode = none)
      ∧ (runExecution wClock wRun0 wOutcome).1.exitCode ≠ none :=
  exit_code_matches_backend wClock wCtx wBody wOutcome [] wRun0 [("run-1", wRun0)]
    [Event.runCreated wRun0] rfl

def Event.isFinished : Event → Bool
  | .runFinished _ _ => true
  | _ => false

lemma runExecution_events (clock : Nat → Nat) (run0 : RunRecord)
    (outcome : BackendOutcome) :
    ∃ err, (runExecution clock run0 outcome).2.1
      = Event.runUpdated { run0 with status := RunStatus.running, updatedAt := clock 2 }
          :: ((chunksOf outcome).map (Event.runLog run0.id)
              ++ [Event.runFinished (runExecution clock run0 outcome).1 err]) := by
  cases outcome with
  | returns chunks exitCode rlog =>
    exact ⟨none, by simp [runExecution, chunksOf, appendChunks_events]⟩
  | throws chunks msg =>
    exact ⟨some msg, by simp [runExecution, chunksOf, appendChunks_events]⟩

lemma post_after_finished_nil (front : List Event) (x : Event)
    (hfront : ∀ e ∈ front, e.isFinished = false) (_hx : x.isFinished = true) :
    ∀ pre post (y : Event), y.isFinished = true →
      front ++ [x] = pre ++ y :: post → post = [] := by
  induction front with
  | nil =>
    intro pre post y hy h
    cases pre with
    | nil =>
      simp only [List.nil_append, List.cons.injEq] at h
      exact h.2.symm
    | cons p ps =>
      simp only [List.nil_append, List.cons_append, List.cons.injEq] at h
      exact absurd h.2 (by simp)
  | cons f fs ih =>
    intro pre post y hy h
    cases pre with
    | nil =>
      simp only [List.cons_append, List.nil_append, List.cons.injEq] at h
      have hf : f.isFinished = true := h.1 ▸ hy
      rw [hfront f (List.mem_cons_self f fs)] at hf
      exact absurd hf (by simp)
    | cons p ps =>
      simp only [List.cons_append, List.cons.injEq] at h
      exact ih (fun e he => hfront e (List.mem_cons_of_mem f he)) ps post y hy h.2

/-- C4: the broadcast trace of a single created run is totally ordered as
`run.created`, then `run.updated` (the transition to running), then the
`run.log` events in stream order, then `run.finished` last; and after any
`run.finished` of the trace no event at all (in particular no `run.log`)
follows. -/
theorem event_order_single_run
    (clock : Nat → Nat) (ctx : CreateCtx) (body : PostBody) (outcome : BackendOutcome)
    (runs : Registry) (r0 : RunRecord) (runs2 : Registry) (evs : List Event)
    (hcreate : createRun clock ctx body runs = (Except.ok r0, runs2, evs)) :
    (∃ r1 rf err,
        postRunsTrace clock ctx body outcome runs
          = Event.runCreated r0
              :: Event.runUpdated r1
              :: ((chunksOf outcome).map (Event.runLog r0.id)
                  ++ [Event.runFinished rf err]))
      ∧ (∀ pre post rf err,
          postRunsTrace clock ctx body outcome runs
            = pre ++ Event.runFinished rf err :: post → post = []) := by
  obtain ⟨hst, hec, hlog, hid, hca, hua, hreg, hevs⟩ :=
    createRun_ok clock ctx body runs r0 runs2 evs hcreate
  have htr := postRunsTrace_of_ok clock ctx body outcome runs r0 runs2 evs hcreate
  obtain ⟨err, hexec⟩ := runExecution_events clock r0 outcome
  have hshape : postRunsTrace clock ctx body outcome runs
      = Event.runCreated r0
          :: Event.runUpdated { r0 with status := RunStatus.running, updatedAt := clock 2 }
          :: ((chunksOf outcome).map (Event.runLog r0.id)
              ++ [Event.runFinished (runExecution clock r0 outcome).1 err]) := by
    rw [htr, hevs, hexec]
    rfl
  constructor
  · exact ⟨_, _, err, hshape⟩
  · intro pre post rf err2 h
    refine post_after_finished_nil
      (Event.runCreated r0
        :: Event.runUpdated { r0 with status := RunStatus.running, updatedAt := clock 2 }
        :: (chunksOf outcome).map (Event.runLog r0.id))
      (Event.runFinished (runExecution clock r0 outcome).1 err) ?_ rfl pre post
      (Event.runFinished rf err2) rfl ?_
    · intro e he
      rcases List.mem_cons.mp he with h1 | he2
      · rw [h1]; rfl
      · rcases List.mem_cons.mp he2 with h2 | he3
        · rw [h2]; rfl
        · obtain ⟨c, _, hc⟩ := List.mem_map.mp he3
          rw [← hc]; rfl
    · rw [List.cons_append, List.cons_append]
      exact hshape.symm.trans h

/-- Witness for C4 at a concrete creation. -/
theorem event_order_single_run_witness :
    (∃ r1 rf err,
        postRunsTrace wClock wCtx wBody wOutcome []
          = Event.runCreated wRun0
              :: Event.runUpdated r1
              :: ((chunksOf wOutcome).map (Event.runLog wRun0.id)
                  ++ [Event.runFinished rf err]))
      ∧ (∀ pre post rf err,
          postRunsTrace wClock wCtx wBody wOutcome []
            = pre ++ Event.runFinished rf err :: post → post = []) :=
  event_order_single_run wClock wCtx wBody wOutcome [] wRun0 [("run-1", wRun0)]
    [Event.runCreated wRun0] rfl

/-- Counterexample to the claim that `updatedAt` is refreshed on every log
append: in a concrete run under the strictly increasing identity clock, the
snapshot after the first log append (index 2 of the history) has a changed
`log` but exactly the same `updatedAt` as the snapshot before it (index 1,
the transition to running) — `appendLog` never samples the clock. -/
theorem updatedAt_unchanged_on_log_append_cex :
    ((postRunsHistory wClock wCtx wBody wOutcome [])[2]?).map RunRecord.log
        ≠ ((postRunsHistory wClock wCtx wBody wOutcome [])[1]?).map RunRecord.log
      ∧ ((postRunsHistory wClock wCtx wBody wOutcome [])[2]?).map RunRecord.updatedAt
          = ((postRunsHistory wClock wCtx wBody wOutcome [])[1]?).map RunRecord.updatedAt
      ∧ StrictMono wClock :=
  ⟨by decide, by decide, fun _ _ h => h⟩

lemma chain_le_cons_replicate (a b c : Nat) (n : Nat) (hab : a ≤ b) (hbc : b ≤ c) :
    List.Chain' (fun x y => x ≤ y) (a :: (List.replicate (n + 1) b ++ [c])) := by
  induction n generalizing a with
  | zero =>
    simp only [List.replicate_succ, List.replicate_zero, List.nil_append,
      List.cons_append, List.chain'_cons, List.nil_append]
    exact ⟨hab, hbc, List.chain'_singleton c⟩
  | succ n ih =>
    have step := ih b (le_refl b)
    simp only [List.replicate_succ, List.cons_append, List.chain'_cons] at step ⊢
    exact ⟨hab, step⟩

/-- C8 (amended): `updatedAt` is stamped with a fresh clock reading at every
status transition — creation (`clock 1`), the transition to running
(`clock 2`) and the terminal transition (`clock 3`) — and is therefore
monotonically non-decreasing over the run's history when the clock is
monotone; log appends leave `updatedAt` unchanged. -/
theorem updatedAt_refreshed_on_transitions
    (clock : Nat → Nat) (ctx : CreateCtx) (body : PostBody) (outcome : BackendOutcome)
    (runs : Registry) (r0 : RunRecord) (runs2 : Registry) (evs : List Event)
    (hmono : Monotone clock)
    (hcreate : createRun clock ctx body runs = (Except.ok r0, runs2, evs)) :
    (postRunsHistory clock ctx body outcome runs).map RunRecord.updatedAt
        = clock 1 :: (List.replicate ((chunksOf outcome).length + 1) (clock 2)
            ++ [clock 3])
      ∧ List.Chain' (fun x y => x ≤ y)
          ((postRunsHistory clock ctx body outcome runs).map RunRecord.updatedAt)
      ∧ (∀ r c, (applyAppendLog r c).updatedAt = r.updatedAt)
      ∧ r0.createdAt = clock 0 ∧ r0.updatedAt = clock 1 := by
  obtain ⟨hst, hec, hlog, hid, hca, hua, hreg, hevs⟩ :=
    createRun_ok clock ctx body runs r0 runs2 evs hcreate
  have hist := postRunsHistory_of_ok clock ctx body outcome runs r0 runs2 evs hcreate
  have hmapeq : (postRunsHistory clock ctx body outcome runs).map RunRecord.updatedAt
      = clock 1 :: (List.replicate ((chunksOf outcome).length + 1) (clock 2)
          ++ [clock 3]) := by
    rw [hist, List.map_cons, hua, runExecution_hist_updatedAt]
  refine ⟨hmapeq, ?_, fun r c => rfl, hca, hua⟩
  rw [hmapeq]
  exact chain_le_cons_replicate (clock 1) (clock 2) (clock 3) _
    (hmono (by omega)) (hmono (by omega))

/-- Witness for the amended C8 at a concrete creation. -/
theorem updatedAt_refreshed_on_transitions_witness :
    (postRunsHistory wClock wCtx wBody wOutcome []).map RunRecord.updatedAt
        = wClock 1 :: (List.replicate ((chunksOf wOutcome).length + 1) (wClock 2)
            ++ [wClock 3])
      ∧ List.Chain' (fun x y => x ≤ y)
          ((postRunsHistory wClock wCtx wBody wOutcome []).map RunRecord.updatedAt)
      ∧ (∀ r c, (applyAppendLog r c).updatedAt = r.updatedAt)
      ∧ wRun0.createdAt = wClock 0 ∧ wRun0.updatedAt = wClock 1 :=
  updatedAt_refreshed_on_transitions wClock wCtx wBody wOutcome [] wRun0
    [("run-1", wRun0)] [Event.runCreated wRun0] (fun _ _ h => h) rfl

/-- C6: when `POST /runs` validation fails — for the act/github engines a
missing `workflowPath` (absent or empty, the source tests JS truthiness) or
no resolvable project, for the builtin engine with a (truthy) workflow path,
no explicit steps and no resolvable project — the handler throws
synchronously: no run record is added (the registry is returned unchanged),
no event is broadcast, and no backend execution produces any snapshot. -/
theorem validation_error_no_side_effects
    (clock : Nat → Nat) (ctx : CreateCtx) (body : PostBody) (outcome : BackendOutcome)
    (runs : Registry)
    (h : (body.engine.getD RunEngine.act ≠ RunEngine.builtin
            ∧ (jsFalsy body.workflowPath = true ∨ ctx.project = none))
        ∨ (body.engine.getD RunEngine.act = RunEngine.builtin
            ∧ body.steps.getD [] = [] ∧ jsTruthy body.workflowPath = true
            ∧ ctx.project = none)) :
    ∃ msg, createRun clock ctx body runs = (Except.error msg, runs, [])
      ∧ postRunsTrace clock ctx body outcome runs = []
      ∧ postRunsHistory clock ctx body outcome runs = [] := by
  have key : ∃ msg, createRun clock ctx body runs = (Except.error msg, runs, []) := by
    rcases h with ⟨hne, hcase⟩ | ⟨he, hsteps, hwf, hproj⟩
    · cases heng : body.engine.getD RunEngine.act with
      | builtin => exact absurd heng hne
      | act =>
        rcases hcase with hwf | hproj
        · exact ⟨"workflowPath is required for act/github engine",
            by simp [createRun, heng, hwf]⟩
        · cases hw : jsFalsy body.workflowPath with
          | true => exact ⟨"workflowPath is required for act/github engine",
              by simp [createRun, heng, hw]⟩
          | false => exact ⟨"No active project. Run: pdbg project add <path>",
              by simp [createRun, heng, hw, hproj]⟩
      | github =>
        rcases hcase with hwf | hproj
        · exact ⟨"workflowPath is required for act/github engine",
            by simp [createRun, heng, hwf]⟩
        · cases hw : jsFalsy body.workflowPath with
          | true => exact ⟨"workflowPath is required for act/github engine",
              by simp [createRun, heng, hw]⟩
          | false => exact ⟨"No active project. Run: pdbg project add <path>",
              by simp [createRun, heng, hw, hproj]⟩
    · exact ⟨"No active project. Run: pdbg project add <path>",
        by simp [createRun, he, hsteps, hwf, hproj]⟩
  obtain ⟨msg, hkey⟩ := key
  refine ⟨msg, hkey, ?_, ?_⟩
  · unfold postRunsTrace
    rw [hkey]
  · unfold postRunsHistory
    rw [hkey]

/-- A request body that triggers validation failure: engine defaults to act
and no `workflowPath` is supplied. -/
def wEmptyBody : PostBody := {}

/-- Witness for C6 at a concrete failing request. -/
theorem validation_error_no_side_effects_witness :
    ∃ msg, createRun wClock wCtx wEmptyBody [] = (Except.error msg, [], [])
      ∧ postRunsTrace wClock wCtx wEmptyBody wOutcome [] = []
      ∧ postRunsHistory wClock wCtx wEmptyBody wOutcome [] = [] :=
  validation_error_no_side_effects wClock wCtx wEmptyBody wOutcome []
    (Or.inl ⟨by decide, Or.inl rfl⟩)

/-- What `executeWorkflowInDocker`'s step loop was observed to do per step:
the action-reference skip notice, the no-run-command skip notice, or an
in-container execution that reported an exit code. -/
inductive StepTrace where
  | skippedUses (label uses : String)
  | skippedNoRun (label : String)
  | executed (label cmd : String) (code : Int)
deriving DecidableEq, Repr

/-- The step label, `step.name ?? step.run ?? step.uses ?? Step i+1`
(docker-executor.ts). -/
def stepLabel (step : WorkflowStep) (i : Nat) : String :=
  step.name.getD (step.run.getD (step.uses.getD ("Step " ++ toString (i + 1))))

/-- The step loop of `executeWorkflowInDocker` (docker-executor.ts lines
88-115) from loop index `i`: skip a step whose `run` is falsy (with the
action-reference notice when `uses` is truthy), otherwise execute the shell
command in the container (`exitOf i cmd` is the exit code the container exec
reported); on a nonzero code stop and return it as the final exit code;
return 0 when the end of the list is reached. -/
def runStepsFrom (exitOf : Nat → String → Int) (i : Nat) :
    List WorkflowStep → Int × List StepTrace
  | [] => (0, [])
  | step :: rest =>
    if jsTruthy step.uses && jsFalsy step.run then
      let r := runStepsFrom exitOf (i + 1) rest
      (r.1, StepTrace.skippedUses (stepLabel step i) (step.uses.getD "") :: r.2)
    else if jsFalsy step.run then
      let r := runStepsFrom exitOf (i + 1) rest
      (r.1, StepTrace.skippedNoRun (stepLabel step i) :: r.2)
    else
      let code := exitOf i (step.run.getD "")
      if code ≠ 0 then
        (code, [StepTrace.executed (stepLabel step i) (step.run.getD "") code])
      else
        let r := runStepsFrom exitOf (i + 1) rest
        (r.1, StepTrace.executed (stepLabel step i) (step.run.getD "") code :: r.2)

/-- The whole step loop, from index 0. -/
def executeSteps (exitOf : Nat → String → Int) (steps : List WorkflowStep) :
    Int × List StepTrace :=
  runStepsFrom exitOf 0 steps

/-- Reference trace, following the spec's words: every step is processed in
list order, skipped when it has no shell command and executed otherwise. -/
def stepsSpecTrace (exitOf : Nat → String → Int) (i : Nat) :
    List WorkflowStep → List StepTrace
  | [] => []
  | step :: rest =>
    (if jsTruthy step.uses && jsFalsy step.run then
      StepTrace.skippedUses (stepLabel step i) (step.uses.getD "")
    else if jsFalsy step.run then
      StepTrace.skippedNoRun (stepLabel step i)
    else
      StepTrace.executed (stepLabel step i) (step.run.getD "")
        (exitOf i (step.run.getD "")))
      :: stepsSpecTrace exitOf (i + 1) rest

lemma runStepsFrom_all_zero (exitOf : Nat → String → Int) (steps : List WorkflowStep)
    (i : Nat)
    (h : ∀ j step, steps.get? j = some step → jsFalsy step.run = false →
        exitOf (i + j) (step.run.getD "") = 0) :
    runStepsFrom exitOf i steps = (0, stepsSpecTrace exitOf i steps) := by
  induction steps generalizing i with
  | nil => rfl
  | cons step rest ih =>
    have hrest : ∀ j s, rest.get? j = some s → jsFalsy s.run = false →
        exitOf (i + 1 + j) (s.run.getD "") = 0 := by
      intro j s hj hf
      have := h (j + 1) s (by simpa using hj) hf
      have harith : i + (j + 1) = i + 1 + j := by omega
      rwa [harith] at this
    cases hskip : (jsTruthy step.uses && jsFalsy step.run) with
    | true =>
      simp only [runStepsFrom, stepsSpecTrace, hskip, if_true, ih (i + 1) hrest]
    | false =>
      cases hfal : jsFalsy step.run with
      | true =>
        simp only [runStepsFrom, stepsSpecTrace, hskip, hfal, if_true,
          Bool.false_eq_true, if_false, ih (i + 1) hrest]
        split <;> rfl
      | false =>
        have hz : exitOf i (step.run.getD "") = 0 := by
          have := h 0 step rfl hfal
          simpa using this
        simp only [runStepsFrom, stepsSpecTrace, hskip, hfal, Bool.false_eq_true,
          if_false, hz, ne_eq, not_true_eq_false, ite_false, ite_true,
          not_false_eq_true, ih (i + 1) hrest]
        split <;> rfl

lemma runStepsFrom_stops (exitOf : Nat → String → Int) (pre : List WorkflowStep)
    (step : WorkflowStep) (post : List WorkflowStep) (i : Nat)
    (h : ∀ j s, pre.get? j = some s → jsFalsy s.run = false →
        exitOf (i + j) (s.run.getD "") = 0)
    (hstep : jsFalsy step.run = false)
    (hfail : exitOf (i + pre.length) (step.run.getD "") ≠ 0) :
    runStepsFrom exitOf i (pre ++ step :: post)
      = (exitOf (i + pre.length) (step.run.getD ""),
         stepsSpecTrace exitOf i pre
           ++ [StepTrace.executed (stepLabel step (i + pre.length)) (step.run.getD "")
                (exitOf (i + pre.length) (step.run.getD ""))]) := by
  induction pre generalizing i with
  | nil =>
    have hskip : (jsTruthy step.uses && jsFalsy step.run) = false := by
      rw [hstep]
      exact Bool.and_false _
    simp only [List.nil_append, List.length_nil, Nat.add_zero] at hfail ⊢
    simp only [runStepsFrom, hskip, hstep, Bool.false_eq_true, if_false]
    rw [if_pos hfail]
    simp [stepsSpecTrace]
  | cons p ps ih =>
    have hps : ∀ j s, ps.get? j = some s → jsFalsy s.run = false →
        exitOf (i + 1 + j) (s.run.getD "") = 0 := by
      intro j s hj hf
      have := h (j + 1) s (by simpa using hj) hf
      have harith : i + (j + 1) = i + 1 + j := by omega
      rwa [harith] at this
    have harith2 : i + (p :: ps).length = i + 1 + ps.length := by
      simp only [List.length_cons]
      omega
    rw [harith2] at hfail
    have ihx := ih (i + 1) hps hfail
    rw [List.cons_append]
    cases hskip : (jsTruthy p.uses && jsFalsy p.run) with
    | true =>
      simp only [runStepsFrom, stepsSpecTrace, hskip, if_true, ihx, harith2,
        List.cons_append]
    | false =>
      cases hfal : jsFalsy p.run with
      | true =>
        simp only [runStepsFrom, stepsSpecTrace, hskip, hfal, if_true,
          Bool.false_eq_true, if_false, ihx, harith2, List.cons_append]
        split <;> rfl
      | false =>
        have hz : exitOf i (p.run.getD "") = 0 := by
          have := h 0 p rfl hfal
          simpa using this
        simp only [runStepsFrom, stepsSpecTrace, hskip, hfal, Bool.false_eq_true,
          if_false, hz, ne_eq, not_true_eq_false, ite_false, ite_true,
          not_false_eq_true, ihx, harith2, List.cons_append]
        split <;> rfl

/-- C5: the container backend processes steps in list order.  When every
executed shell command exits 0, every step is processed — steps without a
shell command produce a skip notice and processing continues — and the final
exit code is 0.  When a step's shell command exits nonzero, the steps before
it are processed normally, that step's nonzero code becomes the final exit
code, and no later step is executed. -/
theorem docker_steps_in_order_stop_on_failure (exitOf : Nat → String → Int) :
    (∀ steps : List WorkflowStep,
        (∀ i step, steps.get? i = some step → jsFalsy step.run = false →
            exitOf i (step.run.getD "") = 0) →
        executeSteps exitOf steps = (0, stepsSpecTrace exitOf 0 steps))
      ∧ (∀ (pre : List WorkflowStep) (step : WorkflowStep) (post : List WorkflowStep),
          (∀ i s, pre.get? i = some s → jsFalsy s.run = false →
              exitOf i (s.run.getD "") = 0) →
          jsFalsy step.run = false →
          exitOf pre.length (step.run.getD "") ≠ 0 →
          executeSteps exitOf (pre ++ step :: post)
            = (exitOf pre.length (step.run.getD ""),
               stepsSpecTrace exitOf 0 pre
                 ++ [StepTrace.executed (stepLabel step pre.length) (step.run.getD "")
                      (exitOf pre.length (step.run.getD ""))])) := by
  constructor
  · intro steps h
    exact runStepsFrom_all_zero exitOf steps 0 (by simpa using h)
  · intro pre step post h hstep hfail
    have := runStepsFrom_stops exitOf pre step post 0 (by simpa using h) hstep
      (by simpa using hfail)
    simpa using this

/-- Fixtures for the executor witness: a command environment where only
`exit 3` fails, one action-reference step, one echo step, one failing step. -/
def wExit : Nat → String → Int := fun _ cmd => if cmd = "exit 3" then 3 else 0

def wExitZero : Nat → String → Int := fun _ _ => 0

def wStepUses : WorkflowStep := { uses := some "actions/checkout@v4" }

def wStepEcho : WorkflowStep := { run := some "echo after" }

def wStepFail : WorkflowStep := { run := some "exit 3" }

/-- Witness for C5: an all-zero list is fully processed with exit 0, and a
`exit 3` step stops processing with final code 3 before a later step. -/
theorem docker_steps_in_order_stop_on_failure_witness :
    executeSteps wExitZero [wStepEcho, wStepUses]
        = (0, stepsSpecTrace wExitZero 0 [wStepEcho, wStepUses])
      ∧ executeSteps wExit ([] ++ wStepFail :: [wStepEcho])
        = (wExit (List.length ([] : List WorkflowStep)) (wStepFail.run.getD ""),
           stepsSpecTrace wExit 0 []
             ++ [StepTrace.executed
                  (stepLabel wStepFail (List.length ([] : List WorkflowStep)))
                  (wStepFail.run.getD "")
                  (wExit (List.length ([] : List WorkflowStep)) (wStepFail.run.getD ""))]) :=
  ⟨(docker_steps_in_order_stop_on_failure wExitZero).1 [wStepEcho, wStepUses]
      (fun _ _ _ _ => rfl),
    (docker_steps_in_order_stop_on_failure wExit).2 [] wStepFail [wStepEcho]
      (fun _ s hi => absurd hi (by simp))
      (by decide) (by decide)⟩

/-- The error thrown by `authOrThrow` (daemon.ts): message plus the HTTP
status code attached to it. -/
structure AuthError where
  message : String
  statusCode : Nat
deriving DecidableEq, Repr

/-- `authOrThrow` (daemon.ts lines 125-132): the `x-pdbg-token` header,
defaulted to the empty string, must be truthy and equal to the daemon token,
else an Unauthorized error with statusCode 401 is thrown. -/
def authOrThrow (daemonToken : String) (header : Option String) :
    Except AuthError Unit :=
  if header.getD "" = "" ∨ header.getD "" ≠ daemonToken then
    Except.error { message := "Unauthorized", statusCode := 401 }
  else Except.ok ()

/-- `{...r, log: undefined}` — the run as serialized without its log. -/
def stripLog (r : RunRecord) : RunRecord := { r with log := none }

/-- `.sort((a, b) => b.createdAt - a.createdAt)` — stable sort, newest
first. -/
def sortByCreatedAtDesc (l : List RunRecord) : List RunRecord :=
  l.mergeSort (fun a b => decide (b.createdAt ≤ a.createdAt))

/-- `GET /status` (daemon.ts): auth, then host, port and run count. -/
def statusEndpoint (daemonToken : String) (header : Option String) (host : String)
    (port : Nat) (runs : Registry) : Except AuthError (String × Nat × Nat) :=
  (authOrThrow daemonToken header).map (fun _ => (host, port, runs.length))

/-- `GET /runs` (daemon.ts): auth, then all runs with the log stripped,
newest first. -/
def listRunsEndpoint (daemonToken : String) (header : Option String)
    (runs : Registry) : Except AuthError (List RunRecord) :=
  (authOrThrow daemonToken header).map
    (fun _ => sortByCreatedAtDesc ((runs.map Prod.snd).map stripLog))

/-- The JSON result of `GET /runs/:id`: `{ error: "not_found" }` or
`{ run, log }`. -/
inductive RunByIdResult where
  | notFound
  | found (run : RunRecord) (log : String)
deriving DecidableEq, Repr

/-- `GET /runs/:id` (daemon.ts lines 168-174): auth, then a not-found value
for unknown ids, else the run without its log plus the log text
(`run.log ?? ''`). -/
def getRunByIdEndpoint (daemonToken : String) (header : Option String)
    (runs : Registry) (id : String) : Except AuthError RunByIdResult :=
  (authOrThrow daemonToken header).map (fun _ =>
    match runs.lookup id with
    | none => RunByIdResult.notFound
    | some run => RunByIdResult.found (stripLog run) (run.log.getD ""))

/-- `POST /runs` including its leading `authOrThrow`. -/
def postRunsEndpoint (daemonToken : String) (header : Option String)
    (clock : Nat → Nat) (ctx : CreateCtx) (body : PostBody) (runs : Registry) :
    Except AuthError (Except String RunRecord × Registry × List Event) :=
  (authOrThrow daemonToken header).map (fun _ => createRun clock ctx body runs)

/-- The `hello` event sent to a new WebSocket subscriber (daemon.ts lines
368-374): the full run records, logs included, newest first. -/
def wsHello (runs : Registry) : Event :=
  Event.hello (sortByCreatedAtDesc (runs.map Prod.snd))

/-- The `GET /ws` handler (daemon.ts lines 351-379): on auth failure close
the socket without registering the client or sending anything; on success
register the client and send it the `hello` snapshot.  Result: the subscriber
set afterwards, the messages sent to this client, and whether the connection
was closed. -/
def wsConnect (daemonToken : String) (header : Option String) (runs : Registry)
    (clients : List Nat) (client : Nat) : List Nat × List Event × Bool :=
  match authOrThrow daemonToken header with
  | .error _ => (clients, [], true)
  | .ok _ => (clients ++ [client], [wsHello runs], false)

/-- C7: a request whose `x-pdbg-token` header is missing or differs from the
daemon token gets the Unauthorized 401 error from `authOrThrow` and hence from
every endpoint guarded by it, and a WebSocket connection attempt with such a
header is closed without the client being added to the subscriber set and
without any message (in particular no `hello`) being sent to it. -/
theorem bad_token_unauthorized
    (daemonToken : String) (header : Option String) (runs : Registry) (id : String)
    (host : String) (port : Nat) (clock : Nat → Nat) (ctx : CreateCtx)
    (body : PostBody) (clients : List Nat) (client : Nat)
    (hbad : header = none ∨ header.getD "" ≠ daemonToken) :
    authOrThrow daemonToken header
        = Except.error { message := "Unauthorized", statusCode := 401 }
      ∧ statusEndpoint daemonToken header host port runs
          = Except.error { message := "Unauthorized", statusCode := 401 }
      ∧ listRunsEndpoint daemonToken header runs
          = Except.error { message := "Unauthorized", statusCode := 401 }
      ∧ getRunByIdEndpoint daemonToken header runs id
          = Except.error { message := "Unauthorized", statusCode := 401 }
      ∧ postRunsEndpoint daemonToken header clock ctx body runs
          = Except.error { message := "Unauthorized", statusCode := 401 }
      ∧ wsConnect daemonToken header runs clients client = (clients, [], true)
      ∧ (client ∉ clients →
          client ∉ (wsConnect daemonToken header runs clients client).1) := by
  have hcond : header.getD "" = "" ∨ header.getD "" ≠ daemonToken := by
    rcases hbad with h | h
    · left
      rw [h]
      rfl
    · right
      exact h
  have hauth : authOrThrow daemonToken header
      = Except.error { message := "Unauthorized", statusCode := 401 } := by
    unfold authOrThrow
    rw [if_pos hcond]
  have hws : wsConnect daemonToken header runs clients client = (clients, [], true) := by
    unfold wsConnect
    rw [hauth]
  refine ⟨hauth, ?_, ?_, ?_, ?_, hws, ?_⟩
  · simp [statusEndpoint, hauth, Except.map]
  · simp [listRunsEndpoint, hauth, Except.map]
  · simp [getRunByIdEndpoint, hauth, Except.map]
  · simp [postRunsEndpoint, hauth, Except.map]
  · intro hnot
    rw [hws]
    exact hnot

/-- Witness for C7 with a concrete wrong token. -/
theorem bad_token_unauthorized_witness :
    authOrThrow "secret-token" (some "wrong")
        = Except.error { message := "Unauthorized", statusCode := 401 }
      ∧ statusEndpoint "secret-token" (some "wrong") "127.0.0.1" 17889 []
          = Except.error { message := "Unauthorized", statusCode := 401 }
      ∧ listRunsEndpoint "secret-token" (some "wrong") []
          = Except.error { message := "Unauthorized", statusCode := 401 }
      ∧ getRunByIdEndpoint "secret-token" (some "wrong") [] "x"
          = Except.error { message := "Unauthorized", statusCode := 401 }
      ∧ postRunsEndpoint "secret-token" (some "wrong") wClock wCtx wBody []
          = Except.error { message := "Unauthorized", statusCode := 401 }
      ∧ wsConnect "secret-token" (some "wrong") [] [] 7 = ([], [], true)
      ∧ (7 ∉ ([] : List Nat) →
          7 ∉ (wsConnect "secret-token" (some "wrong") [] [] 7).1) :=
  bad_token_unauthorized "secret-token" (some "wrong") [] "x" "127.0.0.1" 17889
    wClock wCtx wBody [] 7 (Or.inr (by decide))

/-- C9: `GET /runs/:id` with a valid token returns the not-found value (not a
thrown error) for an id never created, and for an existing id returns the run
with its `log` field omitted plus the full current log as a separate string,
the empty string when no log was ever appended. -/
theorem get_run_by_id_result
    (daemonToken : String) (header : Option String) (runs : Registry) (id : String)
    (hauth : authOrThrow daemonToken header = Except.ok ()) :
    (runs.lookup id = none →
        getRunByIdEndpoint daemonToken header runs id
          = Except.ok RunByIdResult.notFound)
      ∧ (∀ r, runs.lookup id = some r →
          getRunByIdEndpoint daemonToken header runs id
            = Except.ok (RunByIdResult.found (stripLog r) (r.log.getD "")))
      ∧ (∀ r, runs.lookup id = some r → r.log = none →
          getRunByIdEndpoint daemonToken header runs id
            = Except.ok (RunByIdResult.found (stripLog r) "")) := by
  refine ⟨?_, ?_, ?_⟩
  · intro hmiss
    simp [getRunByIdEndpoint, hauth, hmiss, Except.map]
  · intro r hhit
    simp [getRunByIdEndpoint, hauth, hhit, Except.map]
  · intro r hhit hnolog
    simp [getRunByIdEndpoint, hauth, hhit, hnolog, Except.map]

/-- Witness for C9 on a concrete registry: a never-created id yields the
not-found value, an existing id yields the stripped run plus its log. -/
theorem get_run_by_id_result_witness :
    getRunByIdEndpoint "tok" (some "tok") [("run-1", wRun0)] "missing"
        = Except.ok RunByIdResult.notFound
      ∧ getRunByIdEndpoint "tok" (some "tok") [("run-1", wRun0)] "run-1"
          = Except.ok (RunByIdResult.found (stripLog wRun0) (wRun0.log.getD "")) :=
  ⟨(get_run_by_id_result "tok" (some "tok") [("run-1", wRun0)] "missing" rfl).1 rfl,
   (get_run_by_id_result "tok" (some "tok") [("run-1", wRun0)] "run-1" rfl).2.1
      wRun0 rfl⟩

lemma sortByCreatedAtDesc_perm (l : List RunRecord) :
    (sortByCreatedAtDesc l).Perm l :=
  List.mergeSort_perm l _

lemma sortByCreatedAtDesc_sorted (l : List RunRecord) :
    List.Pairwise (fun a b => b.createdAt ≤ a.createdAt) (sortByCreatedAtDesc l) := by
  have h := @List.sorted_mergeSort RunRecord
    (fun a b => decide (b.createdAt ≤ a.createdAt))
    (fun a b c h1 h2 => by
      simp only [decide_eq_true_eq] at h1 h2 ⊢
      omega)
    (fun a b => by
      simp only [Bool.or_eq_true, decide_eq_true_eq]
      omega)
    l
  exact h.imp (fun hab => by simpa using hab)

/-- C10: the `hello` snapshot sent to a new WebSocket subscriber carries the
complete registry records — each element is literally a stored run record,
log buffer included, no `log` stripping — sorted by `createdAt` descending;
by contrast every record in the `GET /runs` list view has its log removed. -/
theorem hello_snapshot_full_records
    (daemonToken : String) (header : Option String) (runs : Registry)
    (hauth : authOrThrow daemonToken header = Except.ok ()) :
    (∃ l, wsHello runs = Event.hello l
        ∧ l.Perm (runs.map Prod.snd)
        ∧ List.Pairwise (fun a b => b.createdAt ≤ a.createdAt) l
        ∧ (∀ r ∈ l, ∃ k, (k, r) ∈ runs))
      ∧ (∀ sent ∈ (wsConnect daemonToken header runs [] 0).2.1,
          sent = wsHello runs)
      ∧ (∀ view, listRunsEndpoint daemonToken header runs = Except.ok view →
          ∀ r ∈ view, r.log = none) := by
  refine ⟨⟨sortByCreatedAtDesc (runs.map Prod.snd), rfl,
    sortByCreatedAtDesc_perm _, sortByCreatedAtDesc_sorted _, ?_⟩, ?_, ?_⟩
  · intro r hr
    have hmem : r ∈ runs.map Prod.snd := (sortByCreatedAtDesc_perm _).mem_iff.mp hr
    obtain ⟨⟨k, r2⟩, hin, hr2⟩ := List.mem_map.mp hmem
    exact ⟨k, by rwa [show r2 = r from hr2] at hin⟩
  · intro sent hsent
    unfold wsConnect at hsent
    rw [hauth] at hsent
    simpa using hsent
  · intro view hview r hr
    have hv : view = sortByCreatedAtDesc ((runs.map Prod.snd).map stripLog) := by
      unfold listRunsEndpoint at hview
      rw [hauth] at hview
      have hview2 : (Except.ok (sortByCreatedAtDesc ((runs.map Prod.snd).map stripLog))
          : Except AuthError (List RunRecord)) = Except.ok view := hview
      injection hview2 with hv2
      exact hv2.symm
    rw [hv] at hr
    have hmem : r ∈ (runs.map Prod.snd).map stripLog :=
      (sortByCreatedAtDesc_perm _).mem_iff.mp hr
    obtain ⟨r2, _, hr2⟩ := List.mem_map.mp hmem
    rw [← hr2]
    rfl

/-- Witness for C10 on a concrete registry. -/
theorem hello_snapshot_full_records_witness :
    (∃ l, wsHello [("run-1", wRun0)] = Event.hello l
        ∧ l.Perm (([("run-1", wRun0)] : Registry).map Prod.snd)
        ∧ List.Pairwise (fun a b => b.createdAt ≤ a.createdAt) l
        ∧ (∀ r ∈ l, ∃ k, (k, r) ∈ ([("run-1", wRun0)] : Registry)))
      ∧ (∀ sent ∈ (wsConnect "tok" (some "tok") [("run-1", wRun0)] [] 0).2.1,
          sent = wsHello [("run-1", wRun0)])
      ∧ (∀ view, listRunsEndpoint "tok" (some "tok") [("run-1", wRun0)]
            = Except.ok view → ∀ r ∈ view, r.log = none) :=
  hello_snapshot_full_records "tok" (some "tok") [("run-1", wRun0)] rfl

end PipelineDaemon
